import Mathlib

/-!
Verification model of the hokku webhook service core (Go), shallowly embedded.

Go strings are modelled as lists of bytes (`GoStr := List Nat`, each entry a
byte value 0..255), because the source routinely inspects and truncates strings
at byte granularity.  Byte values are written in hex; ASCII is noted in
comments.  The model covers:
  - the needed parts of Go's `path/filepath` (Clean, Join, Abs, Rel, Dir,
    Base, Ext) for Unix separators, and `strings`/`unicode/utf8` helpers;
  - `pkg/security` (`ValidatePath`, `SanitizeFilename`,
    `GenerateSecureFilename`, `IsSecurePath`);
  - `internal/model` (`WebhookPayload`, `GenerateID`, `SetTimestamp`);
  - `internal/service/validator.go` (the payload validator);
  - `internal/service` file store (`Write`, `writeFileAtomically`), with
    filesystem effects modelled as explicit state and an oracle of step
    outcomes.
Nondeterministic inputs (UUIDs, the current time, random hex, the process
working directory, the OS-chosen temp-file name, JSON encoding of the whole
payload struct) are passed as parameters.
-/

/-- A Go string: a list of byte values. -/
abbrev GoStr := List Nat

/-- Model of `strings.HasPrefix`. -/
def startsWith : GoStr → GoStr → Bool
  | _, [] => true
  | [], _ :: _ => false
  | a :: s, b :: t => a = b && startsWith s t

/-- Model of `strings.Contains` (substring containment). -/
def containsSub : GoStr → GoStr → Bool
  | s, sub =>
    match s with
    | [] => sub = []
    | _ :: rest => startsWith s sub || containsSub rest sub

/-- Intercalate a separator byte between chunks. -/
def joinWith (sep : Nat) : List GoStr → GoStr
  | [] => []
  | [x] => x
  | x :: y :: rest => x ++ sep :: joinWith sep (y :: rest)

/-- ASCII lower-casing of bytes, modelling `strings.ToLower` on ASCII input
(Go applies Unicode simple case mapping, which agrees with this on ASCII;
all names it is compared against here are ASCII). -/
def toLowerAscii (s : GoStr) : GoStr :=
  s.map fun b => if 0x41 ≤ b ∧ b ≤ 0x5A then b + 0x20 else b

/-- ASCII upper-casing of bytes, modelling `strings.ToUpper` on ASCII input. -/
def toUpperAscii (s : GoStr) : GoStr :=
  s.map fun b => if 0x61 ≤ b ∧ b ≤ 0x7A then b - 0x20 else b

/-- Is `b` a UTF-8 continuation byte (0x80..0xBF)? -/
def isCont (b : Nat) : Bool := 0x80 ≤ b && b ≤ 0xBF

/-- Allowed range of the first continuation byte after lead byte `b`
(Go's `utf8.acceptRanges`). -/
def cont1Ok (b c1 : Nat) : Bool :=
  if b = 0xE0 then 0xA0 ≤ c1 && c1 ≤ 0xBF
  else if b = 0xED then 0x80 ≤ c1 && c1 ≤ 0x9F
  else if b = 0xF0 then 0x90 ≤ c1 && c1 ≤ 0xBF
  else if b = 0xF4 then 0x80 ≤ c1 && c1 ≤ 0x8F
  else isCont c1

/-- Model of `unicode/utf8.ValidString` on bytes. -/
def utf8Valid : GoStr → Bool
  | [] => true
  | b :: rest =>
    if b < 0x80 then utf8Valid rest
    else if 0xC2 ≤ b ∧ b ≤ 0xDF then
      match rest with
      | c1 :: rest2 => isCont c1 && utf8Valid rest2
      | [] => false
    else if 0xE0 ≤ b ∧ b ≤ 0xEF then
      match rest with
      | c1 :: c2 :: rest3 => cont1Ok b c1 && isCont c2 && utf8Valid rest3
      | _ => false
    else if 0xF0 ≤ b ∧ b ≤ 0xF4 then
      match rest with
      | c1 :: c2 :: c3 :: rest4 => cont1Ok b c1 && isCont c2 && isCont c3 && utf8Valid rest4
      | _ => false
    else false

/-- Decode a byte string into its sequence of runes, pairing each decoded rune
value with the bytes it consumed.  Mirrors Go's `for range` / `DecodeRune`
behaviour: an invalid byte decodes as U+FFFD consuming one byte.  The first
argument is fuel (one unit per consumed byte) so that the recursion is
structural; `runes` below supplies fuel equal to the string length, which is
always sufficient since every step consumes at least one byte. -/
def runesFuel : Nat → GoStr → List (Nat × GoStr)
  | 0, _ => []
  | _ + 1, [] => []
  | fuel + 1, b :: rest =>
    if b < 0x80 then (b, [b]) :: runesFuel fuel rest
    else if 0xC2 ≤ b ∧ b ≤ 0xDF then
      match rest with
      | c1 :: rest2 =>
        if isCont c1 then ((b - 0xC0) * 0x40 + (c1 - 0x80), [b, c1]) :: runesFuel fuel rest2
        else (0xFFFD, [b]) :: runesFuel fuel (c1 :: rest2)
      | [] => [(0xFFFD, [b])]
    else if 0xE0 ≤ b ∧ b ≤ 0xEF then
      match rest with
      | c1 :: c2 :: rest3 =>
        if cont1Ok b c1 && isCont c2 then
          ((b - 0xE0) * 0x1000 + (c1 - 0x80) * 0x40 + (c2 - 0x80), [b, c1, c2]) :: runesFuel fuel rest3
        else (0xFFFD, [b]) :: runesFuel fuel (c1 :: c2 :: rest3)
      | [c1] => (0xFFFD, [b]) :: runesFuel fuel [c1]
      | [] => [(0xFFFD, [b])]
    else if 0xF0 ≤ b ∧ b ≤ 0xF4 then
      match rest with
      | c1 :: c2 :: c3 :: rest4 =>
        if cont1Ok b c1 && isCont c2 && isCont c3 then
          ((b - 0xF0) * 0x40000 + (c1 - 0x80) * 0x1000 + (c2 - 0x80) * 0x40 + (c3 - 0x80),
            [b, c1, c2, c3]) :: runesFuel fuel rest4
        else (0xFFFD, [b]) :: runesFuel fuel (c1 :: c2 :: c3 :: rest4)
      | [c1, c2] => (0xFFFD, [b]) :: runesFuel fuel [c1, c2]
      | [c1] => (0xFFFD, [b]) :: runesFuel fuel [c1]
      | [] => [(0xFFFD, [b])]
    else (0xFFFD, [b]) :: runesFuel fuel rest

/-- Rune decoding of a byte string (fuel instantiated to the length). -/
def runes (s : GoStr) : List (Nat × GoStr) := runesFuel s.length s

/-- Model of `unicode.IsSpace` on a rune value. -/
def isSpaceRune (r : Nat) : Bool :=
  r = 0x09 || r = 0x0A || r = 0x0B || r = 0x0C || r = 0x0D || r = 0x20 ||
  r = 0x85 || r = 0xA0 || r = 0x1680 || (0x2000 ≤ r && r ≤ 0x200A) ||
  r = 0x2028 || r = 0x2029 || r = 0x202F || r = 0x205F || r = 0x3000

/-- Re-encode a decoded rune sequence by concatenating the original bytes. -/
def encodeRunes (rs : List (Nat × GoStr)) : GoStr :=
  (rs.map Prod.snd).flatten

/-- Model of `strings.TrimSpace`: drop leading and trailing Unicode-space runes. -/
def goTrimSpace (s : GoStr) : GoStr :=
  encodeRunes ((((runes s).dropWhile fun p => isSpaceRune p.1).reverse.dropWhile
    fun p => isSpaceRune p.1).reverse)

/-- Model of `strings.Split(s, sep-byte)` semantics for a one-byte separator. -/
def splitByte (sep : Nat) : GoStr → List GoStr
  | [] => [[]]
  | b :: rest =>
    if b = sep then [] :: splitByte sep rest
    else
      match splitByte sep rest with
      | seg :: segs => (b :: seg) :: segs
      | [] => [[b]]

/-- The two-byte sequence "..". -/
def dotDot : GoStr := [0x2E, 0x2E]

/-- Lexical path cleaning, element-stack form, as in Go's `filepath.Clean`
for Unix: skip empty and "." segments; ".." pops a previous segment, or is
dropped at the root of a rooted path, or kept at the front of a relative
path. `stack` holds already-emitted segments in reverse order. -/
def cleanStack (rooted : Bool) : List GoStr → List GoStr → List GoStr
  | stack, [] => stack.reverse
  | stack, seg :: rest =>
    if seg = [] ∨ seg = [0x2E] then cleanStack rooted stack rest
    else if seg = dotDot then
      match stack with
      | top :: stackTail =>
        if top = dotDot then cleanStack rooted (dotDot :: top :: stackTail) rest
        else cleanStack rooted stackTail rest
      | [] =>
        if rooted then cleanStack rooted [] rest
        else cleanStack rooted [dotDot] rest
    else cleanStack rooted (seg :: stack) rest

/-- The cleaned segment list of a path (empty for "/" and "."). -/
def pathSegs (p : GoStr) : List GoStr :=
  cleanStack (p.head? = some 0x2F) [] (splitByte 0x2F p)

/-- Model of `filepath.Clean` (Unix). -/
def cleanPath (p : GoStr) : GoStr :=
  if p = [] then [0x2E]
  else
    let segs := pathSegs p
    if p.head? = some 0x2F then 0x2F :: joinWith 0x2F segs
    else if segs = [] then [0x2E]
    else joinWith 0x2F segs

/-- Model of `filepath.Join` of two elements (Unix): join non-empty elements with a
separator and clean the result. -/
def joinPath (a b : GoStr) : GoStr :=
  if a = [] then (if b = [] then [] else cleanPath b)
  else if b = [] then cleanPath a
  else cleanPath (a ++ 0x2F :: b)

/-- Model of `filepath.Abs`, with the process working directory passed explicitly:
an absolute path is cleaned, a relative one is joined onto `cwd`. -/
def absPathOf (cwd p : GoStr) : GoStr :=
  if p.head? = some 0x2F then cleanPath p else joinPath cwd p

/-- Build the relative path once the common segment run has been stripped.
Remaining base segments each contribute one "..". -/
def mkRelSegs (bs ts : List GoStr) : Except Unit GoStr :=
  if bs.head? = some dotDot then .error ()
  else if bs = [] then .ok (joinWith 0x2F ts)
  else .ok (joinWith 0x2F (List.replicate bs.length dotDot ++ ts))

/-- Strip the common leading segments of base and target, then build. -/
def relSegs : List GoStr → List GoStr → Except Unit GoStr
  | b :: bs, t :: ts =>
    if b = t then relSegs bs ts else mkRelSegs (b :: bs) (t :: ts)
  | bs, ts => mkRelSegs bs ts

/-- Model of `filepath.Rel` (Unix): the error case is when one path is rooted and the
other is not, or an un-resolvable ".." remains in the base. -/
def relPathOf (base targ : GoStr) : Except Unit GoStr :=
  let b := cleanPath base
  let t := cleanPath targ
  if b = t then .ok [0x2E]
  else if (b.head? = some 0x2F) ≠ (t.head? = some 0x2F) then .error ()
  else relSegs (pathSegs base) (pathSegs targ)

/-- Model of `filepath.Dir`: everything up to and including the last separator,
cleaned ("." when there is no separator). -/
def dirPath (p : GoStr) : GoStr :=
  cleanPath ((p.reverse.dropWhile fun b => b ≠ 0x2F).reverse)

/-- Model of `filepath.Base`: the last element after stripping trailing separators;
"." for the empty path, "/" for all-separator paths. -/
def basePath (p : GoStr) : GoStr :=
  if p = [] then [0x2E]
  else
    let q := (p.reverse.dropWhile fun b => b = 0x2F).reverse
    if q = [] then [0x2F]
    else (q.reverse.takeWhile fun b => b ≠ 0x2F).reverse

/-- Model of `filepath.Ext`: scan from the end of the reversed path; the suffix from
the last dot in the final element, or empty.  `acc` collects the bytes seen
so far, in original order. -/
def extRev : GoStr → GoStr → GoStr
  | _, [] => []
  | acc, b :: rest =>
    if b = 0x2F then []
    else if b = 0x2E then 0x2E :: acc
    else extRev (b :: acc) rest

/-- Model of `filepath.Ext` on a path. -/
def extPath (p : GoStr) : GoStr := extRev [] p.reverse

/-! ## pkg/security: path validation and filename sanitization -/

/-- The sentinel errors of `pkg/security` (`fmt.Errorf` wrapping collapses to
the wrapped sentinel, which is what the callers and tests compare against). -/
inductive SecErr where
  | pathTraversal
  | invalidFilename
  | unsafeCharacters
  | filenameTooLong
  | emptyFilename
  deriving DecidableEq, Repr

/-- Model of `MaxFilenameLength` (security constants). -/
def maxFilenameLength : Nat := 255

/-- Model of `MaxPathLength` (security constants). -/
def maxPathLength : Nat := 4096

/-- The rune class of the `unsafeChars` regexp: one of `< > : " / \ | ? *`,
a space, or a control byte 0x00..0x1F. -/
def isUnsafeFilenameRune (r : Nat) : Bool :=
  r ≤ 0x1F || r = 0x3C || r = 0x3E || r = 0x3A || r = 0x22 || r = 0x2F ||
  r = 0x5C || r = 0x7C || r = 0x3F || r = 0x2A || r = 0x20

/-- Model of `unsafeChars.ReplaceAllString(s, "_")`: every rune of the unsafe class is
replaced with an underscore, other runes keep their bytes. -/
def replaceUnsafeRunes (s : GoStr) : GoStr :=
  ((runes s).map fun p => if isUnsafeFilenameRune p.1 then [0x5F] else p.2).flatten

/-- The `_+` → `_` regexp replacement: collapse each run of underscores
(0x5F) to a single underscore. -/
def collapseUnderscores : GoStr → GoStr
  | [] => []
  | b :: rest =>
    if b = 0x5F ∧ rest.head? = some 0x5F then collapseUnderscores rest
    else b :: collapseUnderscores rest

/-- Is `b` an underscore or a dot? (`strings.Trim` cutset of the source). -/
def isTrimByte (b : Nat) : Bool := b = 0x5F || b = 0x2E

/-- Model of `strings.Trim(s, "_.")`: drop leading and trailing underscores/dots
(ASCII cutset, so byte-level trimming coincides with rune-level). -/
def trimUnderscoreDot (s : GoStr) : GoStr :=
  ((s.dropWhile fun b => isTrimByte b).reverse.dropWhile fun b => isTrimByte b).reverse

/-- The reserved Windows device names (upper case), as byte strings:
CON PRN AUX NUL COM1..COM9 LPT1..LPT9. -/
def reservedNames : List GoStr :=
  [[0x43, 0x4F, 0x4E], [0x50, 0x52, 0x4E], [0x41, 0x55, 0x58], [0x4E, 0x55, 0x4C]] ++
  ((List.range 9).map fun i => [0x43, 0x4F, 0x4D, 0x31 + i]) ++
  ((List.range 9).map fun i => [0x4C, 0x50, 0x54, 0x31 + i])

/-- Model of `SanitizeFilename` (pkg/security): reject empty / invalid UTF-8, trim
whitespace, replace unsafe runes with `_`, collapse `_` runs, trim `_` and
`.` from both ends, neutralize reserved device names with a leading `_`,
and enforce the 255-byte limit preserving a short extension. -/
def sanitizeFilename (filename : GoStr) : Except SecErr GoStr :=
  if filename = [] then .error .emptyFilename
  else if ¬ utf8Valid filename then .error .unsafeCharacters
  else
    let cleaned := goTrimSpace filename
    if cleaned = [] then .error .emptyFilename
    else
      let sanitized := trimUnderscoreDot (collapseUnderscores (replaceUnsafeRunes cleaned))
      if sanitized = [] then .error .invalidFilename
      else
        let namePart := toUpperAscii (sanitized.takeWhile fun b => b ≠ 0x2E)
        let sanitized2 := if reservedNames.contains namePart then 0x5F :: sanitized else sanitized
        if sanitized2.length > maxFilenameLength then
          let ext := extPath sanitized2
          if 0 < ext.length ∧ ext.length < 10 then
            let nameOnly := sanitized2.take (sanitized2.length - ext.length)
            let maxNameLength := maxFilenameLength - ext.length
            if maxNameLength > 0 then .ok (nameOnly.take maxNameLength ++ ext)
            else .ok (sanitized2.take maxFilenameLength)
          else .ok (sanitized2.take maxFilenameLength)
        else .ok sanitized2

/-- Model of `ValidatePath` (pkg/security).  `cwd` is the process working directory
used by `filepath.Abs` for relative inputs. -/
def validatePath (path baseDir cwd : GoStr) : Except SecErr Unit :=
  if path = [] then .error .emptyFilename
  else if containsSub path [0x00] then .error .unsafeCharacters
  else if path.length > maxPathLength then .error .invalidFilename
  else
    let cleaned := cleanPath path
    if containsSub cleaned dotDot then .error .pathTraversal
    else if baseDir = [] then .ok ()
    else
      let joined := joinPath baseDir cleaned
      let absBase := absPathOf cwd baseDir
      let absFile := absPathOf cwd joined
      match relPathOf absBase absFile with
      | .error _ => .error .pathTraversal
      | .ok rel => if startsWith rel dotDot then .error .pathTraversal else .ok ()

/-- The string "webhook" in bytes (the fallback filename stem). -/
def webhookBytes : GoStr := [0x77, 0x65, 0x62, 0x68, 0x6F, 0x6F, 0x6B]

/-- The string "json" in bytes. -/
def jsonBytes : GoStr := [0x6A, 0x73, 0x6F, 0x6E]

/-- Model of `GenerateSecureFilename` (pkg/security), with the hex encoding of the
random bytes passed in as `randHex` (crypto randomness is external;
`rand.Read` failure is not modelled). -/
def generateSecureFilenameSec (pfx ext randHex : GoStr) : Except SecErr GoStr :=
  match (if pfx = [] then .ok [] else sanitizeFilename pfx : Except SecErr GoStr) with
  | .error e => .error e
  | .ok pfx2 =>
    let base := if pfx2 = [] then randHex else pfx2 ++ 0x5F :: randHex
    if ext = [] then .ok base
    else
      let extTrimmed := if ext.head? = some 0x2E then ext.tail else ext
      match sanitizeFilename extTrimmed with
      | .error e => .error e
      | .ok cleanExt => .ok (base ++ 0x2E :: cleanExt)

/-- Errors of `IsSecurePath`: a `ValidatePath` failure propagated as-is, or a
`SanitizeFilename` failure wrapped as "invalid filename in path". -/
inductive PathCheckErr where
  | pathErr (e : SecErr)
  | filenameInPath (e : SecErr)
  deriving DecidableEq, Repr

/-- Model of `IsSecurePath` (pkg/security): path validation plus filename-component
sanitization. -/
def isSecurePath (fullPath baseDir cwd : GoStr) : Except PathCheckErr Unit :=
  match validatePath fullPath baseDir cwd with
  | .error e => .error (.pathErr e)
  | .ok () =>
    match sanitizeFilename (basePath fullPath) with
    | .error e => .error (.filenameInPath e)
    | .ok _ => .ok ()

/-! ## internal/service/validator.go: the payload validator -/

/-- A JSON-decodable Go value (`interface{}` produced by `encoding/json`):
null, bool, number, string, array, or object.  Object fields are an
association list; Go iterates map keys in unspecified order, which no claim
here depends on (only single matching keys and order-independent sizes are
stated).  Numbers are modelled as integers; only their decimal length enters
any statement.  Values of unsupported dynamic type (the validator's `default`
branch) are not representable in this closed model. -/
inductive Json where
  | null : Json
  | boolean (b : Bool) : Json
  | num (n : Int) : Json
  | str (s : GoStr) : Json
  | arr (xs : List Json) : Json
  | obj (fields : List (GoStr × Json)) : Json

/-- Decimal digit count of a natural number (fuel-based so that it is
structural and kernel-reducible; `n` itself is always enough fuel). -/
def natDigitsFuel : Nat → Nat → Nat
  | 0, _ => 1
  | fuel + 1, n => if n < 10 then 1 else 1 + natDigitsFuel fuel (n / 10)

/-- Decimal digit count of a natural number. -/
def natDigits (n : Nat) : Nat := natDigitsFuel n n

/-- Byte length of the decimal rendering of an integer. -/
def intReprLen (n : Int) : Nat :=
  if n < 0 then 1 + natDigits (-n).toNat else natDigits n.toNat

/-- Output byte length of one rune under `encoding/json` string escaping
(with the default HTML escaping used by `json.Marshal`): quote and backslash
become two bytes, \n \r \t two bytes, other control runes six bytes
(`\u00xx`), `<` `>` `&` and U+2028/U+2029 six bytes, invalid bytes are
replaced by U+FFFD (three bytes), all else keeps its UTF-8 bytes. -/
def escRuneLen (r : Nat) (bs : GoStr) : Nat :=
  if r = 0x22 ∨ r = 0x5C then 2
  else if r = 0x0A ∨ r = 0x0D ∨ r = 0x09 then 2
  else if r < 0x20 then 6
  else if r = 0x3C ∨ r = 0x3E ∨ r = 0x26 then 6
  else if r = 0x2028 ∨ r = 0x2029 then 6
  else if r = 0xFFFD then 3
  else bs.length

/-- Marshalled byte length of a Go string (surrounding quotes included). -/
def strMarshalLen (s : GoStr) : Nat :=
  2 + ((runes s).map fun p => escRuneLen p.1 p.2).sum

mutual
/-- Marshalled byte length of a JSON value under `json.Marshal`.  Map keys
are emitted in sorted order by Go, which does not affect the length, so the
model sums fields in list order. -/
def marshalLen : Json → Nat
  | .null => 4
  | .boolean true => 4
  | .boolean false => 5
  | .num n => intReprLen n
  | .str s => strMarshalLen s
  | .arr xs => 2 + marshalLenElems xs
  | .obj fs => 2 + marshalLenFields fs

def marshalLenElems : List Json → Nat
  | [] => 0
  | [x] => marshalLen x
  | x :: y :: rest => marshalLen x + 1 + marshalLenElems (y :: rest)

def marshalLenFields : List (GoStr × Json) → Nat
  | [] => 0
  | [(k, v)] => strMarshalLen k + 1 + marshalLen v
  | (k, v) :: f :: rest => strMarshalLen k + 1 + marshalLen v + 1 + marshalLenFields (f :: rest)
end

/-- Marshalled byte length of the payload's `data` map (`nil` maps marshal
to `null`, four bytes). -/
def marshalTopLen : Option (List (GoStr × Json)) → Nat
  | none => 4
  | some fs => marshalLen (.obj fs)

/-- Validation constants of validator.go. -/
def maxNestingDepth : Nat := 5

/-- Model of `MaxStringLength`. -/
def maxStringLength : Nat := 10000

/-- Model of `MaxArrayLength`. -/
def maxArrayLength : Nat := 1000

/-- Model of `MaxObjectKeys`. -/
def maxObjectKeys : Nat := 100

/-- The reserved field names (lower case) that may not appear as top-level
keys of `data`: id, timestamp, title, description, source, type. -/
def reservedFieldNames : List GoStr :=
  [[0x69, 0x64],
   [0x74, 0x69, 0x6D, 0x65, 0x73, 0x74, 0x61, 0x6D, 0x70],
   [0x74, 0x69, 0x74, 0x6C, 0x65],
   [0x64, 0x65, 0x73, 0x63, 0x72, 0x69, 0x70, 0x74, 0x69, 0x6F, 0x6E],
   [0x73, 0x6F, 0x75, 0x72, 0x63, 0x65],
   [0x74, 0x79, 0x70, 0x65]]

/-- The payload fields a validation error is attributed to. -/
inductive FieldId where
  | payload
  | title
  | description
  | source
  | dtype
  | data
  deriving DecidableEq, Repr

/-- Failures inside the recursive data-structure walk, with the
`fmt.Errorf("in object key ...: %w")` context wrapping modelled as
constructors. -/
inductive WalkErr where
  | nestingTooDeep (depth : Nat)
  | stringTooLong (len : Nat)
  | invalidUTF8String
  | unsafeStringValue
  | tooManyKeys (n : Nat)
  | keyTooLong (key : GoStr)
  | invalidKeyUTF8 (key : GoStr)
  | arrayTooLong (n : Nat)
  | inKey (key : GoStr) (e : WalkErr)
  | inIndex (i : Nat) (e : WalkErr)
  deriving DecidableEq, Repr

/-- Does a walk error chain bottom out in a nesting-depth failure?
(`errors.Is`-style unwrapping through the context wrappers.) -/
def isNestingTooDeep : WalkErr → Bool
  | .nestingTooDeep _ => true
  | .inKey _ e => isNestingTooDeep e
  | .inIndex _ e => isNestingTooDeep e
  | _ => false

/-- Failure reasons of `validateSourceFormat`. -/
inductive SourceErr where
  | hasSpace
  | consecutiveDots
  | unsafeChar (c : Nat)
  deriving DecidableEq, Repr

/-- Failure reasons of `validateTypeFormat`. -/
inductive TypeErr where
  | hasSpace
  | unsafeChar (c : Nat)
  | dotEdge
  | consecutiveDots
  deriving DecidableEq, Repr

/-- The reason part of a `WrapValidationError`. -/
inductive VReason where
  | requiredMissing
  | dataRequired
  | dataEmpty
  | invalidUTF8
  | unsafeCharacters
  | tooShort (len minLen : Nat)
  | tooLong (len maxLen : Nat)
  | dataTooLarge (size limit : Int)
  | walk (e : WalkErr)
  | reservedField (name : GoStr)
  | sourceFormat (e : SourceErr)
  | typeFormat (e : TypeErr)
  deriving DecidableEq, Repr

/-- A validation error: the field it is attributed to plus the reason. -/
abbrev ValErr := FieldId × VReason

/-- The relevant limits of `internal/config.Config` (int64 sizes as `Int`,
int lengths as `Nat`; only non-negative configurations occur). -/
structure Config where
  storagePath : GoStr
  maxFileSize : Int
  maxTitleLength : Nat
  maxDescLength : Nat
  maxDataSize : Int
  deriving Repr

/-- Go's `time.Time` restricted to what the code observes: the civil-time
fields used by `Format("2006-01-02_15-04-05")` and the zero test. -/
structure Time where
  year : Nat
  month : Nat
  day : Nat
  hour : Nat
  minute : Nat
  second : Nat
  deriving DecidableEq, Repr

/-- The zero `time.Time`: January 1 of year 1, 00:00:00. -/
def Time.zero : Time := ⟨1, 1, 1, 0, 0, 0⟩

/-- Model of `time.Time.IsZero`. -/
def Time.isZero (t : Time) : Bool := t = Time.zero

/-- Model of `model.WebhookPayload`.  `data` is `none` for a nil map (Go distinguishes
nil from empty); `dtype` is the Go field `Type`. -/
structure WebhookPayload where
  title : GoStr
  description : GoStr
  data : Option (List (GoStr × Json))
  id : GoStr
  timestamp : Time
  source : GoStr
  dtype : GoStr

/-- Model of `WebhookPayload.GenerateID`, with the fresh UUID string passed in:
assign only when the id is empty. -/
def generateIDIfEmpty (p : WebhookPayload) (fresh : GoStr) : WebhookPayload :=
  if p.id = [] then { p with id := fresh } else p

/-- Model of `WebhookPayload.SetTimestamp`, with the current instant passed in:
assign only when the timestamp is the zero time. -/
def setTimestampIfZero (p : WebhookPayload) (now : Time) : WebhookPayload :=
  if p.timestamp.isZero then { p with timestamp := now } else p

/-- Model of `containsUnsafeCharacters` (validator.go): a NUL rune, or any control
rune below 32 other than tab, newline, carriage return.  Ranging over a Go
string yields runes (invalid bytes appear as U+FFFD, which is not unsafe). -/
def containsUnsafeCharacters (s : GoStr) : Bool :=
  (runes s).any fun p => p.1 = 0 || (p.1 < 32 && p.1 ≠ 9 && p.1 ≠ 10 && p.1 ≠ 13)

/-- Model of `validateString` (validator.go): required / UTF-8 / unsafe characters /
min length / max length, in that order. -/
def validateString (f : FieldId) (value : GoStr) (minLen maxLen : Nat)
    (required : Bool) : Except ValErr Unit :=
  if required ∧ goTrimSpace value = [] then .error (f, .requiredMissing)
  else if ¬ utf8Valid value then .error (f, .invalidUTF8)
  else if containsUnsafeCharacters value then .error (f, .unsafeCharacters)
  else if value.length < minLen then .error (f, .tooShort value.length minLen)
  else if value.length > maxLen then .error (f, .tooLong value.length maxLen)
  else .ok ()

/-- Model of `ValidateStructure` (validator.go): non-blank title, data present and
non-empty.  (The nil-payload guard is outside this value-level model.) -/
def validateStructure (p : WebhookPayload) : Except ValErr Unit :=
  if goTrimSpace p.title = [] then .error (.title, .requiredMissing)
  else
    match p.data with
    | none => .error (.data, .dataRequired)
    | some fs => if fs.length = 0 then .error (.data, .dataEmpty) else .ok ()

mutual
/-- The recursive walk `validateDataStructure` (validator.go), with its two
iteration loops as mutual companions.  The depth guard precedes the switch;
objects and arrays recurse at `depth + 1`. -/
def validateDataStructure (v : Json) (depth : Nat) : Except WalkErr Unit :=
  if depth > maxNestingDepth then .error (.nestingTooDeep depth)
  else
    match v with
    | .str s =>
      if s.length > maxStringLength then .error (.stringTooLong s.length)
      else if ¬ utf8Valid s then .error .invalidUTF8String
      else if containsUnsafeCharacters s then .error .unsafeStringValue
      else .ok ()
    | .obj fs =>
      if fs.length > maxObjectKeys then .error (.tooManyKeys fs.length)
      else walkFields fs depth
    | .arr xs =>
      if xs.length > maxArrayLength then .error (.arrayTooLong xs.length)
      else walkElems xs 0 depth
    | .num _ => .ok ()
    | .boolean _ => .ok ()
    | .null => .ok ()

def walkFields (fs : List (GoStr × Json)) (depth : Nat) : Except WalkErr Unit :=
  match fs with
  | [] => .ok ()
  | (key, sub) :: rest =>
    if key.length > 100 then .error (.keyTooLong key)
    else if ¬ utf8Valid key then .error (.invalidKeyUTF8 key)
    else
      match validateDataStructure sub (depth + 1) with
      | .error e => .error (.inKey key e)
      | .ok () => walkFields rest depth

def walkElems (xs : List Json) (i : Nat) (depth : Nat) : Except WalkErr Unit :=
  match xs with
  | [] => .ok ()
  | x :: rest =>
    match validateDataStructure x (depth + 1) with
    | .error e => .error (.inIndex i e)
    | .ok () => walkElems rest (i + 1) depth
end

/-- Model of `validateDataField` (validator.go): marshal the data tree and check the
serialized size against the configured limit, then run the recursive walk.
(The marshal-error branch of the source is unreachable for JSON-decodable
values and is not modelled.) -/
def validateDataField (cfg : Config) (d : Option (List (GoStr × Json))) : Except ValErr Unit :=
  let size : Int := marshalTopLen d
  if size > cfg.maxDataSize then .error (.data, .dataTooLarge size cfg.maxDataSize)
  else
    match validateDataStructure (.obj (d.getD [])) 0 with
    | .error e => .error (.data, .walk e)
    | .ok () => .ok ()

/-- Model of `ValidateContent` (validator.go): per-field string validation then the
data field. -/
def validateContent (cfg : Config) (p : WebhookPayload) : Except ValErr Unit := do
  validateString .title p.title 1 cfg.maxTitleLength true
  if p.description ≠ [] then
    validateString .description p.description 0 cfg.maxDescLength false
  if p.source ≠ [] then
    validateString .source p.source 0 128 false
  if p.dtype ≠ [] then
    validateString .dtype p.dtype 0 32 false
  validateDataField cfg p.data

/-- The fixed dangerous-character set `< > " ' & ; |` checked for source and
type, in source order. -/
def dangerousChars : List Nat := [0x3C, 0x3E, 0x22, 0x27, 0x26, 0x3B, 0x7C]

/-- The first dangerous character contained in `s`, if any (the source loops
over `dangerousChars` in order). -/
def findDangerousChar (s : GoStr) : Option Nat :=
  dangerousChars.find? fun c => containsSub s [c]

/-- Model of `validateSourceFormat` (validator.go): no space, no "..", none of the
dangerous characters. -/
def validateSourceFormat (source : GoStr) : Except SourceErr Unit :=
  if containsSub source [0x20] then .error .hasSpace
  else if containsSub source dotDot then .error .consecutiveDots
  else
    match findDangerousChar source with
    | some c => .error (.unsafeChar c)
    | none => .ok ()

/-- Model of `validateTypeFormat` (validator.go): no space, no dangerous characters,
no leading/trailing dot, no "..". -/
def validateTypeFormat (t : GoStr) : Except TypeErr Unit :=
  if containsSub t [0x20] then .error .hasSpace
  else
    match findDangerousChar t with
    | some c => .error (.unsafeChar c)
    | none =>
      if startsWith t [0x2E] ∨ startsWith t.reverse [0x2E] then .error .dotEdge
      else if containsSub t dotDot then .error .consecutiveDots
      else .ok ()

/-- The reserved-field scan of `validateBusinessRules`: the first top-level
key of `data` whose lower-cased form is reserved. -/
def findReservedField : List (GoStr × Json) → Option GoStr
  | [] => none
  | (k, _) :: rest =>
    if reservedFieldNames.contains (toLowerAscii k) then some k
    else findReservedField rest

/-- The source/type format checks of `validateBusinessRules` (run after the
reserved-field scan passes). -/
def sourceTypeChecks (p : WebhookPayload) : Except ValErr Unit := do
  if p.source ≠ [] then
    match validateSourceFormat p.source with
    | .error e => throw (.source, .sourceFormat e)
    | .ok () => pure ()
  if p.dtype ≠ [] then
    match validateTypeFormat p.dtype with
    | .error e => throw (.dtype, .typeFormat e)
    | .ok () => pure ()

/-- Model of `validateBusinessRules` (validator.go): reserved top-level keys of
`data`, then source format, then type format. -/
def validateBusinessRules (p : WebhookPayload) : Except ValErr Unit :=
  match findReservedField (p.data.getD []) with
  | some k => .error (.data, .reservedField k)
  | none => sourceTypeChecks p

/-- Model of `Validate` (validator.go): structure, content, business rules, first
failure wins. -/
def validate (cfg : Config) (p : WebhookPayload) : Except ValErr Unit := do
  validateStructure p
  validateContent cfg p
  validateBusinessRules p

/-! ## internal/service file store: Write and writeFileAtomically -/

/-- Decimal digits of a natural number as bytes (fuel-based structural
recursion; `n` is always enough fuel). -/
def decDigitsFuel : Nat → Nat → GoStr
  | 0, n => [0x30 + n % 10]
  | fuel + 1, n => if n < 10 then [0x30 + n] else decDigitsFuel fuel (n / 10) ++ [0x30 + n % 10]

/-- Zero-padded decimal rendering of a natural number to width `w`. -/
def padDec (w n : Nat) : GoStr :=
  let d := decDigitsFuel n n
  List.replicate (w - d.length) 0x30 ++ d

/-- Model of `time.Time.Format("2006-01-02_15-04-05")`:
YYYY-MM-DD_HH-MM-SS with dashes and one underscore. -/
def formatTimestamp (t : Time) : GoStr :=
  padDec 4 t.year ++ 0x2D :: padDec 2 t.month ++ 0x2D :: padDec 2 t.day ++
  0x5F :: padDec 2 t.hour ++ 0x2D :: padDec 2 t.minute ++ 0x2D :: padDec 2 t.second

/-- Model of `FileStoreImpl.generateSecureFilename`: sanitize the title (falling back
to "webhook"), build `<timestamp>_<id>_<title>.json`, sanitize the whole
name, and on failure fall back to `GenerateSecureFilename("webhook",
"json")` with the supplied random hex. -/
def generateSecureFilenameFS (p : WebhookPayload) (randHex : GoStr) : Except SecErr GoStr :=
  let sanitizedTitle :=
    match sanitizeFilename p.title with
    | .ok s => s
    | .error _ => webhookBytes
  let filename :=
    formatTimestamp p.timestamp ++ 0x5F :: p.id ++ 0x5F :: sanitizedTitle ++
      0x2E :: jsonBytes
  match sanitizeFilename filename with
  | .ok f => .ok f
  | .error _ =>
    match generateSecureFilenameSec webhookBytes jsonBytes randHex with
    | .ok fb => .ok fb
    | .error e => .error e

/-- Failures of `ensureDirectoryExists`. -/
inductive DirErr where
  | invalidDirPath (e : SecErr)
  | statOrMkdirFailed
  deriving DecidableEq, Repr

/-- Model of `ensureDirectoryExists`: validate the directory path (no base
directory), then stat/create it; the filesystem outcome of the stat/mkdir
steps is supplied by the `dirOk` oracle. -/
def ensureDirectoryExists (dirPath cwd : GoStr) (dirOk : Bool) : Except DirErr Unit :=
  match validatePath dirPath [] cwd with
  | .error e => .error (.invalidDirPath e)
  | .ok () => if dirOk then .ok () else .error .statOrMkdirFailed

/-- A flat filesystem: an association list from path to file content. -/
abbrev FSState := List (GoStr × List Nat)

/-- Content at a path, if a file exists there. -/
def fsLookup : FSState → GoStr → Option (List Nat)
  | [], _ => none
  | (q, c) :: rest, p => if q = p then some c else fsLookup rest p

/-- Create or overwrite the file at a path. -/
def fsInsert (st : FSState) (p : GoStr) (c : List Nat) : FSState :=
  (p, c) :: st.filter fun e => e.1 ≠ p

/-- Delete the file at a path, if present. -/
def fsRemove (st : FSState) (p : GoStr) : FSState :=
  st.filter fun e => e.1 ≠ p

/-- Outcomes of the fallible steps of one `writeFileAtomically` call, plus
the OS-chosen temp-file path.  `removeOk` is whether the best-effort deferred
`os.Remove` of the temp file succeeds. -/
structure WriteEnv where
  tempName : GoStr
  createTempOk : Bool
  writeOk : Bool
  syncOk : Bool
  closeOk : Bool
  chmodOk : Bool
  renameOk : Bool
  removeOk : Bool
  deriving Repr

/-- Did every fallible step of the atomic write succeed? -/
def WriteEnv.allOk (env : WriteEnv) : Bool :=
  env.createTempOk && env.writeOk && env.syncOk && env.closeOk &&
  env.chmodOk && env.renameOk

/-- The failing step of `writeFileAtomically`. -/
inductive WriteStepErr where
  | createTempFailed
  | writeFailed
  | syncFailed
  | closeFailed
  | chmodFailed
  | renameFailed
  deriving DecidableEq, Repr

/-- The deferred cleanup of `writeFileAtomically`: best-effort removal of
the temp file. -/
def cleanupTemp (env : WriteEnv) (st : FSState) : FSState :=
  if env.removeOk then fsRemove st env.tempName else st

/-- Model of `writeFileAtomically` (filestore): create a fresh temp file in the
destination directory, write, sync, close, chmod, then atomically rename
onto the destination; on any failure the deferred cleanup removes the temp
file best-effort and the error is returned.  Returns the result and the
filesystem after the call (deferred cleanup included). -/
def writeFileAtomically (env : WriteEnv) (st : FSState) (filePath : GoStr)
    (data : List Nat) : Except WriteStepErr Unit × FSState :=
  if ¬ env.createTempOk then (.error .createTempFailed, st)
  else
    let st1 := fsInsert st env.tempName []
    if ¬ env.writeOk then (.error .writeFailed, cleanupTemp env st1)
    else
      let st2 := fsInsert st1 env.tempName data
      if ¬ env.syncOk then (.error .syncFailed, cleanupTemp env st2)
      else if ¬ env.closeOk then (.error .closeFailed, cleanupTemp env st2)
      else if ¬ env.chmodOk then (.error .chmodFailed, cleanupTemp env st2)
      else if ¬ env.renameOk then (.error .renameFailed, cleanupTemp env st2)
      else (.ok (), fsRemove (fsInsert st2 filePath data) env.tempName)

/-- Failures of `FileStoreImpl.Write` (`WrapFileError` operation tags). -/
inductive FileErr where
  | filenameGeneration (e : SecErr)
  | pathValidation (e : PathCheckErr)
  | directoryCreation (e : DirErr)
  | sizeValidation (size limit : Int)
  | atomicWrite (e : WriteStepErr)
  deriving DecidableEq, Repr

/-- The steps of `FileStoreImpl.Write` after the metadata initialization:
generate a secure filename, join it onto the storage root, run the combined
security check, ensure the parent directory, marshal the payload (the
`json.MarshalIndent` encoding is the external collaborator `marshalPayload`;
its error branch is unreachable for this payload type), enforce the size
limit, then write atomically. -/
def fsWriteSteps (marshalPayload : WebhookPayload → List Nat) (cfg : Config)
    (randHex cwd : GoStr) (env : WriteEnv) (dirOk : Bool) (st : FSState)
    (p2 : WebhookPayload) : FSState × Except FileErr GoStr :=
  match generateSecureFilenameFS p2 randHex with
  | .error e => (st, .error (.filenameGeneration e))
  | .ok baseFilename =>
    let fullPath := joinPath cfg.storagePath baseFilename
    match isSecurePath fullPath cfg.storagePath cwd with
    | .error e => (st, .error (.pathValidation e))
    | .ok () =>
      match ensureDirectoryExists (dirPath fullPath) cwd dirOk with
      | .error e => (st, .error (.directoryCreation e))
      | .ok () =>
        let body := marshalPayload p2
        if (body.length : Int) > cfg.maxFileSize then
          (st, .error (.sizeValidation body.length cfg.maxFileSize))
        else
          match writeFileAtomically env st fullPath body with
          | (.error e, st2) => (st2, .error (.atomicWrite e))
          | (.ok (), st2) => (st2, .ok fullPath)

/-- Model of `FileStoreImpl.Write`: assign missing payload metadata (`GenerateID`,
`SetTimestamp` — both no-ops when already set), then run the remaining
steps.  Returns the payload as mutated through its pointer, the resulting
filesystem, and the final path or error. -/
def fsWrite (marshalPayload : WebhookPayload → List Nat) (cfg : Config)
    (fresh : GoStr) (now : Time) (randHex cwd : GoStr) (env : WriteEnv)
    (dirOk : Bool) (st : FSState) (p : WebhookPayload) :
    WebhookPayload × FSState × Except FileErr GoStr :=
  let p2 := setTimestampIfZero (generateIDIfEmpty p fresh) now
  (p2, fsWriteSteps marshalPayload cfg randHex cwd env dirOk st p2)

/-! ## Concrete fixtures used by the claim theorems -/

deriving instance DecidableEq for Except

/-- Does the path contain a ".." path segment (between separators)? -/
def hasDotDotSegment (p : GoStr) : Bool := (splitByte 0x2F p).contains dotDot

/-- The string "/safe/storage" (the base directory of the repository's tests). -/
def safeStorageDir : GoStr :=
  [0x2F, 0x73, 0x61, 0x66, 0x65, 0x2F, 0x73, 0x74, 0x6F, 0x72, 0x61, 0x67, 0x65]

/-- The string "/" used as working directory. -/
def rootDir : GoStr := [0x2F]

/-- The string "a/../b": contains a ".." segment that lexical cleaning removes. -/
def traversalFreePath : GoStr := [0x61, 0x2F, 0x2E, 0x2E, 0x2F, 0x62]

/-- The string "../etc/passwd". -/
def plainTraversalPath : GoStr :=
  [0x2E, 0x2E, 0x2F, 0x65, 0x74, 0x63, 0x2F, 0x70, 0x61, 0x73, 0x73, 0x77, 0x64]

/-- The string "report..txt": consecutive dots inside one file name, no traversal. -/
def reportDotsName : GoStr :=
  [0x72, 0x65, 0x70, 0x6F, 0x72, 0x74, 0x2E, 0x2E, 0x74, 0x78, 0x74]

/-- A configuration with the default limits (10MB files, 64/512 title and
description, 5MB data) and "/safe/storage" as storage root. -/
def defaultLimitsCfg : Config := ⟨safeStorageDir, 10485760, 64, 512, 5242880⟩

/-- The string "l", the object key of the nesting fixtures. -/
def levelKey : GoStr := [0x6C]

/-- A chain of `n` nested single-key objects with a short string at the
bottom. -/
def deepObj : Nat → Json
  | 0 => .str [0x76]
  | n + 1 => .obj [(levelKey, deepObj n)]

/-- The string "k\x00y": a well-formed UTF-8 object key containing a NUL byte. -/
def nulKey : GoStr := [0x6B, 0x00, 0x79]

/-- A configuration whose data-size limit is three bytes. -/
def tinyDataCfg : Config := ⟨safeStorageDir, 10485760, 64, 512, 3⟩

/-- The string "abc-123", a fixed payload identifier. -/
def fixedId : GoStr := [0x61, 0x62, 0x63, 0x2D, 0x31, 0x32, 0x33]

/-- 2023-01-01 12:30:45, a fixed non-zero timestamp. -/
def fixedTime : Time := ⟨2023, 1, 1, 12, 30, 45⟩

/-- The string "beef", standing in for a random hex string. -/
def fixedRandHex : GoStr := [0x62, 0x65, 0x65, 0x66]

/-- A payload whose (already sanitized) title "report..txt" contains
consecutive dots; id and timestamp are already set. -/
def dotsTitlePayload : WebhookPayload :=
  ⟨reportDotsName, [], some [([0x61], .num 1)], fixedId, fixedTime, [], []⟩

/-- A payload with title "T", data {"a": 1} and source "a\tb" (a tab). -/
def tabSourcePayload : WebhookPayload :=
  ⟨[0x54], [], some [([0x61], .num 1)], [], Time.zero, [0x61, 0x09, 0x62], []⟩

/-- A payload with title "T" and data {"ID": 1}. -/
def reservedKeyPayload : WebhookPayload :=
  ⟨[0x54], [], some [([0x49, 0x44], .num 1)], [], Time.zero, [], []⟩

/-- The string "my doc.txt". -/
def spacedName : GoStr := [0x6D, 0x79, 0x20, 0x64, 0x6F, 0x63, 0x2E, 0x74, 0x78, 0x74]

/-- The string "my_doc.txt", its sanitized form. -/
def spacedNameOut : GoStr := [0x6D, 0x79, 0x5F, 0x64, 0x6F, 0x63, 0x2E, 0x74, 0x78, 0x74]

/-! ## Theorems -/

/-- Once the cleaned path still contains "..", `validatePath` reports a
path traversal, provided the earlier guards (NUL bytes, length) pass. -/
theorem validatePath_cleanedDotDot (path baseDir cwd : GoStr)
    (hnul : containsSub path [0x00] = false)
    (hlen : path.length ≤ maxPathLength)
    (hdd : containsSub (cleanPath path) dotDot = true) :
    validatePath path baseDir cwd = .error .pathTraversal := by
  have hne : path ≠ [] := by
    intro h
    rw [h] at hdd
    revert hdd
    decide
  unfold validatePath
  simp [hne, hnul, hdd, Nat.not_lt.mpr hlen]

/-- C1, counterexample: the path "a/../b" contains a ".." segment relative
to the base directory "/safe/storage", yet `ValidatePath` succeeds, because
lexical cleaning removes the segment before the traversal checks run. -/
theorem claim1_counterexample :
    hasDotDotSegment traversalFreePath = true ∧
    validatePath traversalFreePath safeStorageDir rootDir = .ok () := by
  decide

/-- C1, amended: for every path without NUL bytes and within the length
limit whose lexically CLEANED form still contains "..", `ValidatePath`
returns a PathTraversal error; a path whose ".." segments are removed by
cleaning (such as "a/../b") can succeed. -/
theorem claim1_amended (path baseDir cwd : GoStr)
    (hnul : containsSub path [0x00] = false)
    (hlen : path.length ≤ maxPathLength)
    (hdd : containsSub (cleanPath path) dotDot = true) :
    validatePath path baseDir cwd = .error .pathTraversal :=
  validatePath_cleanedDotDot path baseDir cwd hnul hlen hdd

/-- Witness for the amended C1 at "../etc/passwd" against "/safe/storage". -/
theorem claim1_amended_witness :
    validatePath plainTraversalPath safeStorageDir rootDir = .error .pathTraversal :=
  claim1_amended plainTraversalPath safeStorageDir rootDir (by decide) (by decide)
    (by decide)

/-- C9: `ValidatePath` rejects every path whose cleaned form contains ".."
as a substring anywhere — as PathTraversal when the NUL/length guards pass —
including a single file name with consecutive dots and no traversal segment
("report..txt"); consequently `IsSecurePath` on the stored path fails, and
`FileStoreImpl.Write` fails for a payload whose sanitized title contains
consecutive dots, for every marshaller, working directory, filesystem and
step-outcome oracle. -/
theorem claim9_dotdot_substring :
    (∀ path baseDir cwd : GoStr, containsSub (cleanPath path) dotDot = true →
      ∃ e, validatePath path baseDir cwd = .error e) ∧
    (∀ path baseDir cwd : GoStr, containsSub path [0x00] = false →
      path.length ≤ maxPathLength → containsSub (cleanPath path) dotDot = true →
      validatePath path baseDir cwd = .error .pathTraversal) ∧
    hasDotDotSegment reportDotsName = false ∧
    isSecurePath (joinPath safeStorageDir reportDotsName) safeStorageDir rootDir
      = .error (.pathErr .pathTraversal) ∧
    (∀ (mp : WebhookPayload → List Nat) (cwd : GoStr) (env : WriteEnv)
        (dirOk : Bool) (st : FSState),
      (fsWrite mp defaultLimitsCfg fixedId fixedTime fixedRandHex cwd env dirOk st
          dotsTitlePayload).2.2
        = .error (.pathValidation (.pathErr .pathTraversal))) := by
  refine ⟨?_, ?_, by decide, by decide, ?_⟩
  · intro path baseDir cwd hdd
    have hne : path ≠ [] := by
      intro h
      rw [h] at hdd
      revert hdd
      decide
    by_cases hnul : containsSub path [0x00] = true
    · exact ⟨.unsafeCharacters, by unfold validatePath; simp [hne, hnul]⟩
    · rw [Bool.not_eq_true] at hnul
      by_cases hlen : path.length ≤ maxPathLength
      · exact ⟨.pathTraversal, validatePath_cleanedDotDot path baseDir cwd hnul hlen hdd⟩
      · refine ⟨.invalidFilename, ?_⟩
        unfold validatePath
        simp [hne, hnul, Nat.lt_of_not_le hlen]
  · intro path baseDir cwd hnul hlen hdd
    exact validatePath_cleanedDotDot path baseDir cwd hnul hlen hdd
  · intro mp cwd env dirOk st
    rfl

/-- Witness for C9's universally quantified parts at "report..txt" and the
concrete store scenario (trivial oracle values). -/
theorem claim9_witness :
    (∃ e, validatePath reportDotsName safeStorageDir rootDir = .error e) ∧
    validatePath reportDotsName safeStorageDir rootDir = .error .pathTraversal ∧
    (fsWrite (fun _ => []) defaultLimitsCfg fixedId fixedTime fixedRandHex rootDir
        ⟨[0x74], true, true, true, true, true, true, true⟩ true [] dotsTitlePayload).2.2
      = .error (.pathValidation (.pathErr .pathTraversal)) :=
  ⟨claim9_dotdot_substring.1 reportDotsName safeStorageDir rootDir (by decide),
   claim9_dotdot_substring.2.1 reportDotsName safeStorageDir rootDir (by decide)
     (by decide) (by decide),
   claim9_dotdot_substring.2.2.2.2 (fun _ => []) rootDir
     ⟨[0x74], true, true, true, true, true, true, true⟩ true []⟩

/-- C5: with maximum nesting depth 5, a data tree of exactly five container
levels (the top-level data object plus four nested objects, a string at the
bottom) validates, a tree of six container levels fails with a
NestingTooDeep error, and the depth counter starts at 0 for the top-level
object and is incremented once per container boundary entered — any value
reached at depth above the maximum is rejected as NestingTooDeep. -/
theorem claim5_nesting :
    validateDataField defaultLimitsCfg (some [(levelKey, deepObj 4)]) = .ok () ∧
    (∃ e, validateDataField defaultLimitsCfg (some [(levelKey, deepObj 5)])
        = .error (.data, .walk e) ∧ isNestingTooDeep e = true) ∧
    (∀ (v : Json) (d : Nat), maxNestingDepth < d →
      validateDataStructure v d = .error (.nestingTooDeep d)) := by
  refine ⟨by decide,
    ⟨.inKey levelKey (.inKey levelKey (.inKey levelKey (.inKey levelKey
        (.inKey levelKey (.inKey levelKey (.nestingTooDeep 6)))))),
      by decide, by decide⟩, ?_⟩
  intro v d h
  rw [validateDataStructure.eq_def]
  simp [h]

/-- Witness for C5's depth-counter part at a primitive value and depth 6. -/
theorem claim5_witness :
    validateDataStructure (.num 1) 6 = .error (.nestingTooDeep 6) :=
  claim5_nesting.2.2 (.num 1) 6 (by decide)

/-- C8: whenever the serialized byte size of the data tree exceeds the
configured limit, `validateDataField` fails with the data-too-large error —
for every data tree, including ones whose structure would also fail the
recursive walk, so no per-node structural check is reached. -/
theorem claim8_size_before_walk (cfg : Config) (d : Option (List (GoStr × Json)))
    (h : cfg.maxDataSize < (marshalTopLen d : Int)) :
    validateDataField cfg d
      = .error (.data, .dataTooLarge (marshalTopLen d) cfg.maxDataSize) := by
  unfold validateDataField
  simp [h]

/-- Witness for C8: a three-byte data-size limit with a nine-level nested
tree (which would also violate the depth bound) reports data-too-large. -/
theorem claim8_witness :
    validateDataField tinyDataCfg (some [(levelKey, deepObj 9)])
      = .error (.data, .dataTooLarge (marshalTopLen (some [(levelKey, deepObj 9)])) 3) :=
  claim8_size_before_walk tinyDataCfg (some [(levelKey, deepObj 9)]) (by decide)

/-- C10: in the recursive walk, object keys are only checked for byte length
at most 100 and UTF-8 validity — a single-key object whose key satisfies
those two checks validates whenever its value does, whatever bytes the key
contains; concretely, a key with an embedded NUL byte (which
`containsUnsafeCharacters` would reject) passes the whole data-field
validation, while the same bytes as a string VALUE are rejected. -/
theorem claim10_keys_not_unsafe_checked :
    (∀ (key : GoStr) (v : Json) (d : Nat), d ≤ maxNestingDepth →
      key.length ≤ 100 → utf8Valid key = true →
      validateDataStructure v (d + 1) = .ok () →
      validateDataStructure (.obj [(key, v)]) d = .ok ()) ∧
    containsUnsafeCharacters nulKey = true ∧
    validateDataField defaultLimitsCfg (some [(nulKey, .num 1)]) = .ok () ∧
    validateDataStructure (.str nulKey) 1 = .error .unsafeStringValue := by
  refine ⟨?_, by decide, by decide, by decide⟩
  intro key v d hd hk hu hv
  rw [validateDataStructure.eq_def]
  simp [Nat.not_lt.mpr hd, maxObjectKeys]
  rw [walkFields.eq_def]
  simp [Nat.not_lt.mpr hk, hu, hv]
  rw [walkFields.eq_def]

/-- Witness for C10's universal part at the NUL-byte key and a numeric
value at depth 0. -/
theorem claim10_witness :
    validateDataStructure (.obj [(nulKey, .num 1)]) 0 = .ok () :=
  claim10_keys_not_unsafe_checked.1 nulKey (.num 1) 0 (by decide) (by decide)
    (by decide) (by decide)

/-- C7, counterexample: a payload whose source "a\tb" contains a tab — a
whitespace character — passes the whole validation, because
`containsUnsafeCharacters` exempts tab/newline/carriage-return and
`validateSourceFormat` only looks for the space character 0x20. -/
theorem claim7_counterexample :
    (∃ b ∈ tabSourcePayload.source, b = 0x09) ∧
    tabSourcePayload.source ≠ [] ∧
    validate defaultLimitsCfg tabSourcePayload = .ok () := by
  decide

/-- C7, amended: a non-empty source is rejected whenever it contains the
space character 0x20, the substring "..", or one of the dangerous
characters `< > " ' & ; |`; tab, newline and carriage return are NOT
rejected (see the counterexample).  First part: `validateSourceFormat`
itself fails; second part: `validateBusinessRules` fails on such a
payload. -/
theorem claim7_amended :
    (∀ s : GoStr,
      containsSub s [0x20] = true ∨ containsSub s dotDot = true ∨
        (∃ c ∈ dangerousChars, containsSub s [c] = true) →
      ∃ e, validateSourceFormat s = .error e) ∧
    (∀ p : WebhookPayload, p.source ≠ [] →
      containsSub p.source [0x20] = true ∨ containsSub p.source dotDot = true ∨
        (∃ c ∈ dangerousChars, containsSub p.source [c] = true) →
      ∃ e, validateBusinessRules p = .error e) := by
  have core : ∀ s : GoStr,
      containsSub s [0x20] = true ∨ containsSub s dotDot = true ∨
        (∃ c ∈ dangerousChars, containsSub s [c] = true) →
      ∃ e, validateSourceFormat s = .error e := by
    intro s h
    unfold validateSourceFormat
    by_cases hs : containsSub s [0x20] = true
    · exact ⟨.hasSpace, by simp [hs]⟩
    · rw [Bool.not_eq_true] at hs
      by_cases hd : containsSub s dotDot = true
      · exact ⟨.consecutiveDots, by simp [hs, hd]⟩
      · rw [Bool.not_eq_true] at hd
        cases hfind : findDangerousChar s with
        | some c => exact ⟨.unsafeChar c, by simp [hs, hd, hfind]⟩
        | none =>
          exfalso
          rcases h with h | h | ⟨c, hc, hcon⟩
          · exact absurd h (by simp [hs])
          · exact absurd h (by simp [hd])
          · have := List.find?_eq_none.mp hfind c hc
            simp [hcon] at this
  refine ⟨core, ?_⟩
  intro p hne h
  unfold validateBusinessRules
  cases hres : findReservedField (p.data.getD []) with
  | some k => exact ⟨(.data, .reservedField k), by simp⟩
  | none =>
    obtain ⟨e, he⟩ := core p.source h
    refine ⟨(.source, .sourceFormat e), ?_⟩
    simp only
    unfold sourceTypeChecks
    simp [hne, he]
    rfl

/-- Witness for the amended C7 at the source "a b" (a space). -/
theorem claim7_amended_witness :
    ∃ e, validateSourceFormat [0x61, 0x20, 0x62] = .error e :=
  claim7_amended.1 [0x61, 0x20, 0x62] (Or.inl (by decide))

/-- If every top-level key of the data map has a non-reserved lower-cased
form, the reserved-field scan finds nothing. -/
theorem findReservedField_none (fs : List (GoStr × Json))
    (h : ∀ k ∈ fs.map Prod.fst, reservedFieldNames.contains (toLowerAscii k) = false) :
    findReservedField fs = none := by
  induction fs with
  | nil => rfl
  | cons hd tl ih =>
    obtain ⟨k, v⟩ := hd
    have hk := h k (by simp)
    rw [findReservedField, if_neg (by simpa using hk)]
    exact ih fun k2 hm => h k2 (by simp [hm])

/-- What the reserved-field scan returns is a top-level key with a reserved
lower-cased form. -/
theorem findReservedField_mem (fs : List (GoStr × Json)) (k : GoStr)
    (h : findReservedField fs = some k) :
    k ∈ fs.map Prod.fst ∧ reservedFieldNames.contains (toLowerAscii k) = true := by
  induction fs with
  | nil => exact absurd h (by simp [findReservedField])
  | cons hd tl ih =>
    obtain ⟨k2, v⟩ := hd
    rw [findReservedField] at h
    by_cases hres : reservedFieldNames.contains (toLowerAscii k2) = true
    · rw [if_pos hres] at h
      obtain rfl : k2 = k := by injection h
      exact ⟨by simp, hres⟩
    · rw [if_neg hres] at h
      obtain ⟨hm, hr⟩ := ih h
      exact ⟨by simp [hm], hr⟩

/-- If some top-level key has a reserved lower-cased form, the scan finds
one. -/
theorem findReservedField_isSome (fs : List (GoStr × Json))
    (h : ∃ k ∈ fs.map Prod.fst, reservedFieldNames.contains (toLowerAscii k) = true) :
    ∃ k, findReservedField fs = some k := by
  induction fs with
  | nil => simp at h
  | cons hd tl ih =>
    obtain ⟨k2, v⟩ := hd
    rw [findReservedField]
    by_cases hres : reservedFieldNames.contains (toLowerAscii k2) = true
    · exact ⟨k2, by rw [if_pos hres]⟩
    · rw [if_neg hres]
      rcases h with ⟨k, hm, hr⟩
      simp at hm
      rcases hm with rfl | hm
      · exact absurd hr hres
      · exact ih ⟨k, by simp [hm], hr⟩

/-- C6: if some top-level key of `data` case-insensitively equals a reserved
field name, `validateBusinessRules` fails with a reserved-field error naming
such a key; if no top-level key does, the reserved-field check passes and
the business rules continue with the source/type checks (keys at deeper
levels are never consulted).  The keys are assumed ASCII, where the model's
ASCII case folding coincides with Go's `strings.ToLower`. -/
theorem claim6_reserved_fields (p : WebhookPayload)
    (hascii : ∀ k ∈ (p.data.getD []).map Prod.fst, ∀ b ∈ k, b < 0x80) :
    ((∃ k ∈ (p.data.getD []).map Prod.fst,
        reservedFieldNames.contains (toLowerAscii k) = true) →
      ∃ k, k ∈ (p.data.getD []).map Prod.fst ∧
        reservedFieldNames.contains (toLowerAscii k) = true ∧
        validateBusinessRules p = .error (.data, .reservedField k)) ∧
    ((∀ k ∈ (p.data.getD []).map Prod.fst,
        reservedFieldNames.contains (toLowerAscii k) = false) →
      validateBusinessRules p = sourceTypeChecks p) := by
  constructor
  · intro hex
    obtain ⟨k, hk⟩ := findReservedField_isSome _ hex
    obtain ⟨hmem, hres⟩ := findReservedField_mem _ k hk
    exact ⟨k, hmem, hres, by unfold validateBusinessRules; rw [hk]⟩
  · intro hnone
    unfold validateBusinessRules
    rw [findReservedField_none _ hnone]

/-- Witness for C6 at the payload with data {"ID": 1}: the check fails
naming a reserved key. -/
theorem claim6_witness :
    ∃ k, k ∈ (reservedKeyPayload.data.getD []).map Prod.fst ∧
      reservedFieldNames.contains (toLowerAscii k) = true ∧
      validateBusinessRules reservedKeyPayload = .error (.data, .reservedField k) :=
  (claim6_reserved_fields reservedKeyPayload (by decide)).1 ⟨[0x49, 0x44], by decide, by decide⟩

/-- Filtering out the entries at path `p` does not change lookups at other
paths. -/
theorem fsLookup_filter_ne (st : FSState) (p q : GoStr) (h : q ≠ p) :
    fsLookup (st.filter fun e => e.1 ≠ p) q = fsLookup st q := by
  induction st with
  | nil => rfl
  | cons hd tl ih =>
    by_cases hp : hd.1 = p
    · rw [List.filter_cons_of_neg (by simp [hp])]
      rw [show fsLookup (hd :: tl) q = if hd.1 = q then some hd.2 else fsLookup tl q from rfl]
      rw [if_neg (by rw [hp]; exact fun hh => h hh.symm)]
      exact ih
    · rw [List.filter_cons_of_pos (by simp [hp])]
      show (if hd.1 = q then some hd.2 else _) = (if hd.1 = q then some hd.2 else _)
      by_cases hq : hd.1 = q
      · rw [if_pos hq, if_pos hq]
      · rw [if_neg hq, if_neg hq]
        exact ih

/-- After removal, the removed path has no file. -/
theorem fsLookup_remove_self (st : FSState) (p : GoStr) :
    fsLookup (fsRemove st p) p = none := by
  unfold fsRemove
  induction st with
  | nil => rfl
  | cons hd tl ih =>
    by_cases hp : hd.1 = p
    · rw [List.filter_cons_of_neg (by simp [hp])]
      exact ih
    · rw [List.filter_cons_of_pos (by simp [hp])]
      show (if hd.1 = p then some hd.2 else _) = none
      rw [if_neg hp]
      exact ih

/-- Removal does not change lookups at other paths. -/
theorem fsLookup_remove_ne (st : FSState) (p q : GoStr) (h : q ≠ p) :
    fsLookup (fsRemove st p) q = fsLookup st q :=
  fsLookup_filter_ne st p q h

/-- Insertion at `p` does not change lookups at other paths. -/
theorem fsLookup_insert_ne (st : FSState) (p q : GoStr) (c : List Nat) (h : q ≠ p) :
    fsLookup (fsInsert st p c) q = fsLookup st q := by
  unfold fsInsert
  rw [show fsLookup ((p, c) :: _) q = if p = q then some c else _ from rfl]
  rw [if_neg fun hh => h hh.symm]
  exact fsLookup_filter_ne st p q h

/-- The deferred cleanup never changes the destination (it only ever removes
the temp file), and when its removal succeeds the temp file is gone. -/
theorem cleanupTemp_spec (env : WriteEnv) (st : FSState) (q : GoStr)
    (h : q ≠ env.tempName) :
    fsLookup (cleanupTemp env st) q = fsLookup st q ∧
    (env.removeOk = true → fsLookup (cleanupTemp env st) env.tempName = none) := by
  unfold cleanupTemp
  by_cases hr : env.removeOk = true
  · rw [if_pos hr]
    exact ⟨fsLookup_remove_ne st env.tempName q h, fun _ => fsLookup_remove_self st env.tempName⟩
  · rw [if_neg hr]
    exact ⟨rfl, fun hc => absurd hc hr⟩

/-- C3: whenever any fallible step of `writeFileAtomically` fails, the call
returns an error, the destination path holds exactly what it held before
(never a partial file), and — when the best-effort removal succeeds — the
temporary file is gone.  The temp file is fresh (`CreateTemp` creates a new
file) and distinct from the destination. -/
theorem claim3_atomic_write_failure (env : WriteEnv) (st : FSState)
    (filePath : GoStr) (data : List Nat)
    (hfresh : fsLookup st env.tempName = none)
    (hne : env.tempName ≠ filePath)
    (hfail : env.allOk = false) :
    ∃ e, (writeFileAtomically env st filePath data).1 = .error e ∧
      fsLookup (writeFileAtomically env st filePath data).2 filePath
        = fsLookup st filePath ∧
      (env.removeOk = true →
        fsLookup (writeFileAtomically env st filePath data).2 env.tempName = none) := by
  have hdest : filePath ≠ env.tempName := fun h => hne h.symm
  have ins1 : fsLookup (fsInsert st env.tempName []) filePath = fsLookup st filePath :=
    fsLookup_insert_ne st env.tempName filePath [] hdest
  have ins2 : fsLookup (fsInsert (fsInsert st env.tempName []) env.tempName data) filePath
      = fsLookup st filePath := by
    rw [fsLookup_insert_ne _ env.tempName filePath data hdest]
    exact ins1
  obtain ⟨h1a, h2a⟩ := cleanupTemp_spec env (fsInsert st env.tempName []) filePath hdest
  obtain ⟨h1b, h2b⟩ :=
    cleanupTemp_spec env (fsInsert (fsInsert st env.tempName []) env.tempName data)
      filePath hdest
  unfold writeFileAtomically
  by_cases hc : env.createTempOk = true
  case neg =>
    rw [if_pos hc]
    exact ⟨.createTempFailed, rfl, rfl, fun _ => hfresh⟩
  case pos =>
  rw [if_neg (not_not_intro hc)]
  by_cases hw : env.writeOk = true
  case neg =>
    rw [if_pos hw]
    refine ⟨.writeFailed, rfl, ?_, ?_⟩
    · show fsLookup (cleanupTemp env (fsInsert st env.tempName [])) filePath
        = fsLookup st filePath
      rw [h1a]
      exact ins1
    · show env.removeOk = true →
        fsLookup (cleanupTemp env (fsInsert st env.tempName [])) env.tempName = none
      exact h2a
  case pos =>
  rw [if_neg (not_not_intro hw)]
  by_cases hs : env.syncOk = true
  case neg =>
    rw [if_pos hs]
    refine ⟨.syncFailed, rfl, ?_, ?_⟩
    · show fsLookup (cleanupTemp env (fsInsert (fsInsert st env.tempName [])
        env.tempName data)) filePath = fsLookup st filePath
      rw [h1b]
      exact ins2
    · exact h2b
  case pos =>
  rw [if_neg (not_not_intro hs)]
  by_cases hcl : env.closeOk = true
  case neg =>
    rw [if_pos hcl]
    refine ⟨.closeFailed, rfl, ?_, ?_⟩
    · show fsLookup (cleanupTemp env (fsInsert (fsInsert st env.tempName [])
        env.tempName data)) filePath = fsLookup st filePath
      rw [h1b]
      exact ins2
    · exact h2b
  case pos =>
  rw [if_neg (not_not_intro hcl)]
  by_cases hch : env.chmodOk = true
  case neg =>
    rw [if_pos hch]
    refine ⟨.chmodFailed, rfl, ?_, ?_⟩
    · show fsLookup (cleanupTemp env (fsInsert (fsInsert st env.tempName [])
        env.tempName data)) filePath = fsLookup st filePath
      rw [h1b]
      exact ins2
    · exact h2b
  case pos =>
  rw [if_neg (not_not_intro hch)]
  by_cases hr : env.renameOk = true
  case neg =>
    rw [if_pos hr]
    refine ⟨.renameFailed, rfl, ?_, ?_⟩
    · show fsLookup (cleanupTemp env (fsInsert (fsInsert st env.tempName [])
        env.tempName data)) filePath = fsLookup st filePath
      rw [h1b]
      exact ins2
    · exact h2b
  case pos =>
    exfalso
    rw [WriteEnv.allOk, hc, hw, hs, hcl, hch, hr] at hfail
    simp at hfail

/-- Witness for C3: a sync failure on a filesystem already holding the
destination leaves its old content in place and removes the temp file. -/
theorem claim3_witness :
    ∃ e, (writeFileAtomically ⟨[0x74], true, true, false, true, true, true, true⟩
        [([0x64], [9])] [0x64] [1, 2]).1 = .error e ∧
      fsLookup (writeFileAtomically ⟨[0x74], true, true, false, true, true, true, true⟩
        [([0x64], [9])] [0x64] [1, 2]).2 [0x64] = fsLookup [([0x64], [9])] [0x64] ∧
      ((⟨[0x74], true, true, false, true, true, true, true⟩ : WriteEnv).removeOk = true →
        fsLookup (writeFileAtomically ⟨[0x74], true, true, false, true, true, true, true⟩
          [([0x64], [9])] [0x64] [1, 2]).2 [0x74] = none) :=
  claim3_atomic_write_failure ⟨[0x74], true, true, false, true, true, true, true⟩
    [([0x64], [9])] [0x64] [1, 2] (by decide) (by decide) (by decide)

/-- C4: `FileStoreImpl.Write` assigns the payload identifier and timestamp
only when they are unset (never overwriting an existing value), leaves
every other payload field (title, description, data, source, type)
unchanged, and a second `Write` is a no-op on the whole mutated payload —
for every marshaller, configuration, oracle and filesystem. -/
theorem claim4_metadata_idempotent (mp : WebhookPayload → List Nat) (cfg : Config)
    (fresh : GoStr) (now : Time) (randHex cwd : GoStr) (env : WriteEnv)
    (dirOk : Bool) (st : FSState) (p : WebhookPayload) :
    ((fsWrite mp cfg fresh now randHex cwd env dirOk st p).1
        = setTimestampIfZero (generateIDIfEmpty p fresh) now) ∧
    (p.id ≠ [] → (fsWrite mp cfg fresh now randHex cwd env dirOk st p).1.id = p.id) ∧
    (p.id = [] → (fsWrite mp cfg fresh now randHex cwd env dirOk st p).1.id = fresh) ∧
    (p.timestamp.isZero = false →
      (fsWrite mp cfg fresh now randHex cwd env dirOk st p).1.timestamp = p.timestamp) ∧
    (p.timestamp.isZero = true →
      (fsWrite mp cfg fresh now randHex cwd env dirOk st p).1.timestamp = now) ∧
    (fsWrite mp cfg fresh now randHex cwd env dirOk st p).1.title = p.title ∧
    (fsWrite mp cfg fresh now randHex cwd env dirOk st p).1.description = p.description ∧
    (fsWrite mp cfg fresh now randHex cwd env dirOk st p).1.data = p.data ∧
    (fsWrite mp cfg fresh now randHex cwd env dirOk st p).1.source = p.source ∧
    (fsWrite mp cfg fresh now randHex cwd env dirOk st p).1.dtype = p.dtype ∧
    (fresh ≠ [] → now.isZero = false →
      ∀ (mp2 : WebhookPayload → List Nat) (cfg2 : Config) (fresh2 : GoStr) (now2 : Time)
        (randHex2 cwd2 : GoStr) (env2 : WriteEnv) (dirOk2 : Bool) (st2 : FSState),
      (fsWrite mp2 cfg2 fresh2 now2 randHex2 cwd2 env2 dirOk2 st2
          (fsWrite mp cfg fresh now randHex cwd env dirOk st p).1).1
        = (fsWrite mp cfg fresh now randHex cwd env dirOk st p).1) := by
  have hgen : ∀ (q : WebhookPayload) (f : GoStr), q.id ≠ [] → generateIDIfEmpty q f = q := by
    intro q f h
    unfold generateIDIfEmpty
    rw [if_neg h]
  have hset : ∀ (q : WebhookPayload) (n : Time), q.timestamp.isZero = false →
      setTimestampIfZero q n = q := by
    intro q n h
    unfold setTimestampIfZero
    rw [h]
    simp
  have hq : (fsWrite mp cfg fresh now randHex cwd env dirOk st p).1
      = setTimestampIfZero (generateIDIfEmpty p fresh) now := rfl
  have hfields : ∀ (q : WebhookPayload) (f : GoStr) (n : Time),
      (setTimestampIfZero (generateIDIfEmpty q f) n).title = q.title ∧
      (setTimestampIfZero (generateIDIfEmpty q f) n).description = q.description ∧
      (setTimestampIfZero (generateIDIfEmpty q f) n).data = q.data ∧
      (setTimestampIfZero (generateIDIfEmpty q f) n).source = q.source ∧
      (setTimestampIfZero (generateIDIfEmpty q f) n).dtype = q.dtype := by
    intro q f n
    unfold setTimestampIfZero generateIDIfEmpty
    by_cases h1 : q.id = [] <;> by_cases h2 : (q : WebhookPayload).timestamp.isZero = true <;>
      simp [h1, h2]
  have hid : (fsWrite mp cfg fresh now randHex cwd env dirOk st p).1.id
      = if p.id = [] then fresh else p.id := by
    rw [hq]
    unfold setTimestampIfZero generateIDIfEmpty
    by_cases h1 : p.id = [] <;>
      by_cases h2 : (generateIDIfEmpty p fresh).timestamp.isZero = true <;>
      simp [generateIDIfEmpty, h1] at h2 ⊢ <;> simp [h2]
  have hts : (fsWrite mp cfg fresh now randHex cwd env dirOk st p).1.timestamp
      = if p.timestamp.isZero = true then now else p.timestamp := by
    rw [hq]
    unfold setTimestampIfZero generateIDIfEmpty
    by_cases h1 : p.id = [] <;> by_cases h2 : p.timestamp.isZero = true <;>
      simp [Time.isZero] at h2 ⊢ <;> simp [h1, h2, Time.isZero]
  obtain ⟨ht, hd, hda, hs, hdt⟩ := hfields p fresh now
  refine ⟨hq, ?_, ?_, ?_, ?_, (hq ▸ ht), (hq ▸ hd), (hq ▸ hda), (hq ▸ hs), (hq ▸ hdt), ?_⟩
  · intro h
    rw [hid, if_neg h]
  · intro h
    rw [hid, if_pos h]
  · intro h
    rw [hts]
    simp [h]
  · intro h
    rw [hts, if_pos h]
  · intro hfr hnz mp2 cfg2 fresh2 now2 randHex2 cwd2 env2 dirOk2 st2
    have hidne : (fsWrite mp cfg fresh now randHex cwd env dirOk st p).1.id ≠ [] := by
      rw [hid]
      by_cases h1 : p.id = []
      · rw [if_pos h1]; exact hfr
      · rw [if_neg h1]; exact h1
    have htsne : (fsWrite mp cfg fresh now randHex cwd env dirOk st p).1.timestamp.isZero
        = false := by
      rw [hts]
      by_cases h2 : p.timestamp.isZero = true
      · rw [if_pos h2]; exact hnz
      · rw [if_neg h2]; exact Bool.not_eq_true _ |>.mp h2
    show setTimestampIfZero (generateIDIfEmpty _ fresh2) now2 = _
    rw [hgen _ fresh2 hidne]
    exact hset _ now2 htsne

/-- Witness for C4: a payload with both metadata fields already set is
unchanged, and a second call at fresh values is a no-op. -/
theorem claim4_witness :
    (fsWrite (fun _ => []) defaultLimitsCfg [0x78] fixedTime fixedRandHex rootDir
        ⟨[0x74], true, true, true, true, true, true, true⟩ true [] dotsTitlePayload).1.id
      = dotsTitlePayload.id ∧
    (fsWrite (fun _ => []) defaultLimitsCfg [0x78] fixedTime fixedRandHex rootDir
        ⟨[0x74], true, true, true, true, true, true, true⟩ true [] dotsTitlePayload).1.title
      = dotsTitlePayload.title ∧
    (fsWrite (fun _ => []) defaultLimitsCfg [0x78] fixedTime fixedRandHex rootDir
        ⟨[0x74], true, true, true, true, true, true, true⟩ true []
        (fsWrite (fun _ => []) defaultLimitsCfg [0x78] fixedTime fixedRandHex rootDir
          ⟨[0x74], true, true, true, true, true, true, true⟩ true [] dotsTitlePayload).1).1
      = (fsWrite (fun _ => []) defaultLimitsCfg [0x78] fixedTime fixedRandHex rootDir
          ⟨[0x74], true, true, true, true, true, true, true⟩ true [] dotsTitlePayload).1 := by
  have h := claim4_metadata_idempotent (fun _ => []) defaultLimitsCfg [0x78] fixedTime
    fixedRandHex rootDir ⟨[0x74], true, true, true, true, true, true, true⟩ true []
    dotsTitlePayload
  exact ⟨h.2.1 (by decide), h.2.2.2.2.2.1,
    h.2.2.2.2.2.2.2.2.2.2 (by decide) (by decide) (fun _ => []) defaultLimitsCfg [0x78]
      fixedTime fixedRandHex rootDir ⟨[0x74], true, true, true, true, true, true, true⟩
      true []⟩

/-- A continuation byte is at least 0x80. -/
theorem isCont_ge (c : Nat) (h : isCont c = true) : 0x80 ≤ c := by
  unfold isCont at h
  simp only [Bool.and_eq_true, decide_eq_true_eq] at h
  exact h.1

/-- Every accepted first continuation byte is at least 0x80. -/
theorem cont1Ok_ge (b c : Nat) (h : cont1Ok b c = true) : 0x80 ≤ c := by
  unfold cont1Ok at h
  split_ifs at h <;>
    simp only [isCont, Bool.and_eq_true, decide_eq_true_eq] at h <;>
    omega

/-- Shape of decoded rune/byte pairs: an ASCII rune carries exactly its own
byte, and every other decoding (multi-byte or invalid) carries only bytes
at least 0x80. -/
theorem runesFuel_snd (fuel : Nat) (s : GoStr) :
    ∀ p ∈ runesFuel fuel s, (p.1 < 0x80 ∧ p.2 = [p.1]) ∨ (∀ b ∈ p.2, 0x80 ≤ b) := by
  induction fuel generalizing s with
  | zero => intro p hp; simp [runesFuel] at hp
  | succ n ih =>
    intro p hp
    cases s with
    | nil => simp [runesFuel] at hp
    | cons b rest =>
      by_cases hA : b < 0x80
      · simp only [runesFuel, if_pos hA] at hp
        rcases List.mem_cons.mp hp with rfl | hp2
        · exact Or.inl ⟨hA, rfl⟩
        · exact ih rest p hp2
      · have hb : 0x80 ≤ b := Nat.le_of_not_lt hA
        by_cases hB : 0xC2 ≤ b ∧ b ≤ 0xDF
        · cases rest with
          | nil =>
            simp only [runesFuel, if_neg hA, if_pos hB] at hp
            rcases List.mem_singleton.mp hp with rfl
            exact Or.inr fun x hx => by
              rcases List.mem_singleton.mp hx with rfl
              exact hb
          | cons c1 rest2 =>
            by_cases hC : isCont c1 = true
            · simp only [runesFuel, if_neg hA, if_pos hB, if_pos hC] at hp
              rcases List.mem_cons.mp hp with rfl | hp2
              · refine Or.inr fun x hx => ?_
                simp only [List.mem_cons, List.not_mem_nil, or_false] at hx
                rcases hx with rfl | rfl
                · exact hb
                · exact isCont_ge x hC
              · exact ih rest2 p hp2
            · simp only [runesFuel, if_neg hA, if_pos hB, if_neg hC] at hp
              rcases List.mem_cons.mp hp with rfl | hp2
              · exact Or.inr fun x hx => by
                  rcases List.mem_singleton.mp hx with rfl
                  exact hb
              · exact ih (c1 :: rest2) p hp2
        · by_cases hD : 0xE0 ≤ b ∧ b ≤ 0xEF
          · cases rest with
            | nil =>
              simp only [runesFuel, if_neg hA, if_neg hB, if_pos hD] at hp
              rcases List.mem_singleton.mp hp with rfl
              exact Or.inr fun x hx => by
                rcases List.mem_singleton.mp hx with rfl
                exact hb
            | cons c1 rest2 =>
              cases rest2 with
              | nil =>
                simp only [runesFuel, if_neg hA, if_neg hB, if_pos hD] at hp
                rcases List.mem_cons.mp hp with rfl | hp2
                · exact Or.inr fun x hx => by
                    rcases List.mem_singleton.mp hx with rfl
                    exact hb
                · exact ih [c1] p hp2
              | cons c2 rest3 =>
                by_cases hC : (cont1Ok b c1 && isCont c2) = true
                · simp only [runesFuel, if_neg hA, if_neg hB, if_pos hD, if_pos hC] at hp
                  simp only [Bool.and_eq_true] at hC
                  rcases List.mem_cons.mp hp with rfl | hp2
                  · refine Or.inr fun x hx => ?_
                    simp only [List.mem_cons, List.not_mem_nil, or_false] at hx
                    rcases hx with rfl | rfl | rfl
                    · exact hb
                    · exact cont1Ok_ge b x hC.1
                    · exact isCont_ge x hC.2
                  · exact ih rest3 p hp2
                · simp only [runesFuel, if_neg hA, if_neg hB, if_pos hD, if_neg hC] at hp
                  rcases List.mem_cons.mp hp with rfl | hp2
                  · exact Or.inr fun x hx => by
                      rcases List.mem_singleton.mp hx with rfl
                      exact hb
                  · exact ih (c1 :: c2 :: rest3) p hp2
          · by_cases hE : 0xF0 ≤ b ∧ b ≤ 0xF4
            · cases rest with
              | nil =>
                simp only [runesFuel, if_neg hA, if_neg hB, if_neg hD, if_pos hE] at hp
                rcases List.mem_singleton.mp hp with rfl
                exact Or.inr fun x hx => by
                  rcases List.mem_singleton.mp hx with rfl
                  exact hb
              | cons c1 rest2 =>
                cases rest2 with
                | nil =>
                  simp only [runesFuel, if_neg hA, if_neg hB, if_neg hD, if_pos hE] at hp
                  rcases List.mem_cons.mp hp with rfl | hp2
                  · exact Or.inr fun x hx => by
                      rcases List.mem_singleton.mp hx with rfl
                      exact hb
                  · exact ih [c1] p hp2
                | cons c2 rest3 =>
                  cases rest3 with
                  | nil =>
                    simp only [runesFuel, if_neg hA, if_neg hB, if_neg hD, if_pos hE] at hp
                    rcases List.mem_cons.mp hp with rfl | hp2
                    · exact Or.inr fun x hx => by
                        rcases List.mem_singleton.mp hx with rfl
                        exact hb
                    · exact ih [c1, c2] p hp2
                  | cons c3 rest4 =>
                    by_cases hC : (cont1Ok b c1 && isCont c2 && isCont c3) = true
                    · simp only [runesFuel, if_neg hA, if_neg hB, if_neg hD, if_pos hE,
                        if_pos hC] at hp
                      simp only [Bool.and_eq_true] at hC
                      rcases List.mem_cons.mp hp with rfl | hp2
                      · refine Or.inr fun x hx => ?_
                        simp only [List.mem_cons, List.not_mem_nil, or_false] at hx
                        rcases hx with rfl | rfl | rfl | rfl
                        · exact hb
                        · exact cont1Ok_ge b x hC.1.1
                        · exact isCont_ge x hC.1.2
                        · exact isCont_ge x hC.2
                      · exact ih rest4 p hp2
                    · simp only [runesFuel, if_neg hA, if_neg hB, if_neg hD, if_pos hE,
                        if_neg hC] at hp
                      rcases List.mem_cons.mp hp with rfl | hp2
                      · exact Or.inr fun x hx => by
                          rcases List.mem_singleton.mp hx with rfl
                          exact hb
                      · exact ih (c1 :: c2 :: c3 :: rest4) p hp2
            · simp only [runesFuel, if_neg hA, if_neg hB, if_neg hD, if_neg hE] at hp
              rcases List.mem_cons.mp hp with rfl | hp2
              · exact Or.inr fun x hx => by
                  rcases List.mem_singleton.mp hx with rfl
                  exact hb
              · exact ih rest p hp2

/-- The rune/byte shape property for `runes`. -/
theorem runes_snd (s : GoStr) :
    ∀ p ∈ runes s, (p.1 < 0x80 ∧ p.2 = [p.1]) ∨ (∀ b ∈ p.2, 0x80 ≤ b) :=
  runesFuel_snd s.length s

/-- After the unsafe-character replacement, no byte is a control byte
(0x00..0x1F) or a path separator. -/
theorem replaceUnsafe_good (s : GoStr) :
    ∀ b ∈ replaceUnsafeRunes s, 0x1F < b ∧ b ≠ 0x2F ∧ b ≠ 0x5C := by
  intro b hb
  unfold replaceUnsafeRunes at hb
  obtain ⟨chunk, hchunk, hbc⟩ := List.mem_flatten.mp hb
  obtain ⟨p, hp, rfl⟩ := List.mem_map.mp hchunk
  by_cases hu : isUnsafeFilenameRune p.1 = true
  · rw [if_pos hu] at hbc
    rcases List.mem_singleton.mp hbc with rfl
    refine ⟨by omega, by omega, by omega⟩
  · rw [if_neg hu] at hbc
    rcases runesFuel_snd s.length s p hp with ⟨hlt, heq⟩ | hge
    · rw [heq] at hbc
      rcases List.mem_singleton.mp hbc with rfl
      unfold isUnsafeFilenameRune at hu
      simp only [Bool.or_eq_true, decide_eq_true_eq, not_or] at hu
      refine ⟨by omega, by omega, by omega⟩
    · have := hge b hbc
      exact ⟨by omega, by omega, by omega⟩

/-- Collapsing underscore runs introduces no new bytes. -/
theorem collapseUnderscores_subset (xs : GoStr) :
    ∀ b ∈ collapseUnderscores xs, b ∈ xs := by
  induction xs with
  | nil => intro b hb; simp [collapseUnderscores] at hb
  | cons a rest ih =>
    intro b hb
    rw [collapseUnderscores] at hb
    by_cases hc : a = 0x5F ∧ rest.head? = some 0x5F
    · rw [if_pos hc] at hb
      exact List.mem_cons_of_mem a (ih b hb)
    · rw [if_neg hc] at hb
      rcases List.mem_cons.mp hb with rfl | hb2
      · exact List.mem_cons_self b rest
      · exact List.mem_cons_of_mem a (ih b hb2)

/-- Trimming underscores and dots introduces no new bytes. -/
theorem trimUnderscoreDot_subset (s : GoStr) :
    ∀ b ∈ trimUnderscoreDot s, b ∈ s := by
  intro b hb
  unfold trimUnderscoreDot at hb
  have h1 := List.mem_reverse.mp hb
  have h2 := (List.dropWhile_sublist _).subset h1
  have h3 := List.mem_reverse.mp h2
  exact (List.dropWhile_sublist _).subset h3

/-- Bytes of the extension scan come from the accumulator, the scanned
bytes, or are the dot itself. -/
theorem extRev_subset (rev : GoStr) :
    ∀ acc : GoStr, ∀ b ∈ extRev acc rev, b = 0x2E ∨ b ∈ acc ∨ b ∈ rev := by
  induction rev with
  | nil => intro acc b hb; simp [extRev] at hb
  | cons c rest ih =>
    intro acc b hb
    rw [extRev] at hb
    by_cases h1 : c = 0x2F
    · rw [if_pos h1] at hb
      simp at hb
    · rw [if_neg h1] at hb
      by_cases h2 : c = 0x2E
      · rw [if_pos h2] at hb
        rcases List.mem_cons.mp hb with rfl | hb2
        · exact Or.inl rfl
        · exact Or.inr (Or.inl hb2)
      · rw [if_neg h2] at hb
        rcases ih (c :: acc) b hb with h | h | h
        · exact Or.inl h
        · rcases List.mem_cons.mp h with rfl | h3
          · exact Or.inr (Or.inr (List.mem_cons_self b rest))
          · exact Or.inr (Or.inl h3)
        · exact Or.inr (Or.inr (List.mem_cons_of_mem c h))

/-- Every byte of `filepath.Ext p` is a dot or a byte of `p`. -/
theorem extPath_subset (p : GoStr) : ∀ b ∈ extPath p, b = 0x2E ∨ b ∈ p := by
  intro b hb
  rcases extRev_subset p.reverse [] b hb with h | h | h
  · exact Or.inl h
  · simp at h
  · exact Or.inr (List.mem_reverse.mp h)

/-- C2: whenever `SanitizeFilename` succeeds, the returned name contains no
path separator (0x2F or 0x5C), no NUL byte and no control byte 0x00..0x1F
(every byte exceeds 0x1F), and its byte length is at most 255. -/
theorem claim2_sanitize_shape (s out : GoStr) (h : sanitizeFilename s = .ok out) :
    (∀ b ∈ out, 0x1F < b ∧ b ≠ 0x2F ∧ b ≠ 0x5C) ∧ out.length ≤ 255 := by
  simp only [sanitizeFilename] at h
  by_cases h1 : s = []
  · rw [if_pos h1] at h; simp at h
  rw [if_neg h1] at h
  by_cases h2 : utf8Valid s = true
  case neg => rw [if_pos (by simpa using h2)] at h; simp at h
  rw [if_neg (by simpa using h2)] at h
  by_cases h3 : goTrimSpace s = []
  · rw [if_pos h3] at h; simp at h
  rw [if_neg h3] at h
  by_cases h4 : trimUnderscoreDot (collapseUnderscores (replaceUnsafeRunes (goTrimSpace s))) = []
  · rw [if_pos h4] at h; simp at h
  rw [if_neg h4] at h
  have hgoodr : ∀ b ∈ trimUnderscoreDot (collapseUnderscores (replaceUnsafeRunes (goTrimSpace s))),
      0x1F < b ∧ b ≠ 0x2F ∧ b ≠ 0x5C := by
    intro b hb
    exact replaceUnsafe_good (goTrimSpace s) b
      (collapseUnderscores_subset _ b (trimUnderscoreDot_subset _ b hb))
  set S2 : GoStr :=
    if reservedNames.contains (toUpperAscii
        ((trimUnderscoreDot (collapseUnderscores (replaceUnsafeRunes (goTrimSpace s)))).takeWhile
          fun b => b ≠ 0x2E)) = true then
      0x5F :: trimUnderscoreDot (collapseUnderscores (replaceUnsafeRunes (goTrimSpace s)))
    else trimUnderscoreDot (collapseUnderscores (replaceUnsafeRunes (goTrimSpace s))) with hS2
  have hgoodS2 : ∀ b ∈ S2, 0x1F < b ∧ b ≠ 0x2F ∧ b ≠ 0x5C := by
    rw [hS2]
    split
    · intro b hb
      rcases List.mem_cons.mp hb with rfl | hb2
      · exact ⟨by omega, by omega, by omega⟩
      · exact hgoodr b hb2
    · exact hgoodr
  by_cases hlen : S2.length > maxFilenameLength
  case neg =>
    rw [if_neg hlen] at h
    obtain rfl : S2 = out := by injection h
    exact ⟨hgoodS2, Nat.le_of_not_lt hlen⟩
  rw [if_pos hlen] at h
  have hgoodTake : ∀ n : Nat, ∀ b ∈ S2.take n, 0x1F < b ∧ b ≠ 0x2F ∧ b ≠ 0x5C :=
    fun n b hb => hgoodS2 b ((List.take_sublist n S2).subset hb)
  have hgoodExt : ∀ b ∈ extPath S2, 0x1F < b ∧ b ≠ 0x2F ∧ b ≠ 0x5C := by
    intro b hb
    rcases extPath_subset S2 b hb with rfl | hb2
    · exact ⟨by omega, by omega, by omega⟩
    · exact hgoodS2 b hb2
  by_cases hext : 0 < (extPath S2).length ∧ (extPath S2).length < 10
  case neg =>
    rw [if_neg hext] at h
    obtain rfl : S2.take maxFilenameLength = out := by injection h
    refine ⟨hgoodTake maxFilenameLength, ?_⟩
    calc (S2.take maxFilenameLength).length ≤ maxFilenameLength := by
          rw [List.length_take]; exact Nat.min_le_left _ _
      _ ≤ 255 := by rw [maxFilenameLength]
  rw [if_pos hext] at h
  by_cases hmax : maxFilenameLength - (extPath S2).length > 0
  case neg =>
    rw [if_neg hmax] at h
    obtain rfl : S2.take maxFilenameLength = out := by injection h
    refine ⟨hgoodTake maxFilenameLength, ?_⟩
    calc (S2.take maxFilenameLength).length ≤ maxFilenameLength := by
          rw [List.length_take]; exact Nat.min_le_left _ _
      _ ≤ 255 := by rw [maxFilenameLength]
  rw [if_pos hmax] at h
  obtain rfl : (S2.take (S2.length - (extPath S2).length)).take
      (maxFilenameLength - (extPath S2).length) ++ extPath S2 = out := by injection h
  constructor
  · intro b hb
    rcases List.mem_append.mp hb with hb2 | hb2
    · exact hgoodTake _ b ((List.take_sublist _ _).subset hb2)
    · exact hgoodExt b hb2
  · rw [List.length_append]
    have hTT : ((S2.take (S2.length - (extPath S2).length)).take
        (maxFilenameLength - (extPath S2).length)).length
        ≤ maxFilenameLength - (extPath S2).length := by
      rw [List.length_take]; exact Nat.min_le_left _ _
    have he255 : (extPath S2).length ≤ 255 := by
      have := hext.2; omega
    have : maxFilenameLength - (extPath S2).length + (extPath S2).length = 255 := by
      rw [maxFilenameLength]; omega
    omega

/-- Witness for C2: "my doc.txt" sanitizes to "my_doc.txt", which satisfies
the shape guarantee. -/
theorem claim2_witness :
    (∀ b ∈ spacedNameOut, 0x1F < b ∧ b ≠ 0x2F ∧ b ≠ 0x5C) ∧ spacedNameOut.length ≤ 255 :=
  claim2_sanitize_shape spacedName spacedNameOut (by decide)
